import Mathlib

/-!
Verification of `djangobulk/bulk.py` (`insert_or_update_many` and its helpers)
against its natural-language specification.

The Python module is embedded shallowly:

* a Django field (`model._meta.fields` element) becomes the structure `DbField`
  carrying exactly the attributes the module reads: `name`, `column`,
  the rendered `db_type` string, and whether it is an `AutoField`;
* a Django model becomes `Model` (field list, primary-key name, table name);
* `con.ops.quote_name` and `f.get_db_prep_save (f.pre_save obj True)` are
  Django connection/field operations external to this repository, so they are
  passed in as function parameters `qn` and `prep`;
* Python's `",".join` / `" AND ".join` become `joinSep`, and the `%`-template
  instantiation at the bottom of the function becomes explicit string
  concatenation of the template's literal pieces (which is what the Python
  `%` operator produces: substituted values are spliced in verbatim and are
  not re-scanned for format specifiers);
* the function's observable behaviour becomes a `CallResult`: the early
  return on empty input, the `assert key_fields` failure, or the effect
  trace `[execute sql parameters, commit_unless_managed]`.
-/

/-- One column descriptor, as read by `bulk.py` from `model._meta.fields`:
the field name, the storage column name, the rendered database type
(`f.db_type(con)`), and whether the field is a `models.AutoField`. -/
structure DbField where
  name : String
  column : String
  dbType : String
  isAuto : Bool
deriving DecidableEq, Repr, Inhabited

/-- The slice of a Django model that `bulk.py` reads: `_meta.fields`,
`_meta.pk.name` and `_meta.db_table`. -/
structure Model where
  fields : List DbField
  pkName : String
  dbTable : String
deriving DecidableEq, Repr

/-- Python's `sep.join(xs)`: the elements of `xs` concatenated with `sep`
between consecutive elements, empty string on the empty list. -/
def joinSep (sep : String) : List String → String
  | [] => ""
  | [x] => x
  | x :: y :: xs => x ++ sep ++ joinSep sep (y :: xs)

/-- The effects `insert_or_update_many` can perform against the connection
and the transaction machinery.  The source only ever emits `execute` and
`commitUnlessManaged`; `savepoint` and `rollback` are in the type so that
their absence from the emitted trace is a meaningful statement. -/
inductive Effect (V : Type) where
  | execute (sql : String) (params : List V)
  | commitUnlessManaged
  | savepoint
  | rollback
deriving DecidableEq, Repr

/-- Outcome of one call: the early return on falsy `objects`, the
`assert key_fields, "Empty key fields"` failure, or a normal run that
performed the listed effects in order. -/
inductive CallResult (V : Type) where
  | earlyReturn
  | preconditionError
  | done (effects : List (Effect V))
deriving DecidableEq, Repr

/-- Effect trace of a call result (empty for the early return and for the
precondition failure, both of which happen before any cursor is obtained). -/
def CallResult.effects {V : Type} : CallResult V → List (Effect V)
  | .earlyReturn => []
  | .preconditionError => []
  | .done es => es

/-- `_model_fields(model)`: every model field that is not an `AutoField`. -/
def model_fields (m : Model) : List DbField :=
  m.fields.filter (fun f => !f.isAuto)

/-- `keys = keys or [model._meta.pk.name]`: Python `or` replaces a falsy
argument (`None` or the empty list) by the one-element primary-key list. -/
def resolve_keys (m : Model) (keys : Option (List String)) : List String :=
  match keys with
  | none => [m.pkName]
  | some ks => if ks.isEmpty then [m.pkName] else ks

/-- `all_field_names = [f.name for f in all_fields]`. -/
def all_field_names (m : Model) : List String :=
  (model_fields m).map (fun f => f.name)

/-- `all_col_names = ",".join(con.ops.quote_name(f.column) for f in all_fields)`. -/
def all_col_names (qn : String → String) (m : Model) : String :=
  joinSep "," ((model_fields m).map (fun f => qn f.column))

/-- `key_fields = [f for f in model._meta.fields if f.name in keys and f.name in all_field_names]`. -/
def key_fields (m : Model) (keys : List String) : List DbField :=
  m.fields.filter (fun f => keys.contains f.name && (all_field_names m).contains f.name)

/-- `key_col_names = ",".join(con.ops.quote_name(f.column) for f in key_fields)`. -/
def key_col_names (qn : String → String) (m : Model) (keys : List String) : String :=
  joinSep "," ((key_fields m keys).map (fun f => qn f.column))

/-- `update_fields = [f for f in model._meta.fields if f.name not in keys and f.name not in skip_for_update and f.name in all_field_names]`. -/
def update_fields (m : Model) (keys skip_for_update : List String) : List DbField :=
  m.fields.filter
    (fun f => !keys.contains f.name && !skip_for_update.contains f.name
      && (all_field_names m).contains f.name)

/-- `update_col_names = ",".join(con.ops.quote_name(f.column) for f in update_fields)`
(computed by the source but never spliced into the statement). -/
def update_col_names (qn : String → String) (m : Model) (keys skip_for_update : List String) : String :=
  joinSep "," ((update_fields m keys skip_for_update).map (fun f => qn f.column))

/-- `tuple_placeholder = "(%s)" % ",".join("%%s::%s" % f.db_type(con) for f in all_fields)`:
after the inner `%` formatting each element reads `%s::<db_type>`, so the
whole string is one parenthesised placeholder tuple with a type cast on
every column. -/
def tuple_placeholder (m : Model) : String :=
  "(" ++ joinSep "," ((model_fields m).map (fun f => "%s::" ++ f.dbType)) ++ ")"

/-- `placeholders = ",".join(repeat(tuple_placeholder, len(objects)))`. -/
def placeholders (m : Model) (n : Nat) : String :=
  joinSep "," (List.replicate n (tuple_placeholder m))

/-- `_prep_values(fields, obj, con)`: the tuple of prepared values of `obj`,
one per field in field order; the Django call
`f.get_db_prep_save(f.pre_save(obj, True), connection=con)` is the external
parameter `prep`. -/
def prep_values {α V : Type} (fields : List DbField) (obj : α) (prep : DbField → α → V) : List V :=
  fields.map (fun f => prep f obj)

/-- `parameters = [_prep_values(all_fields, o, con) for o in objects]` followed
by `parameters = [field for row in parameters for field in row]`: the per-record
value tuples flattened record-major, then field-major. -/
def parameters {α V : Type} (m : Model) (objects : List α) (prep : DbField → α → V) : List V :=
  ((objects.map (fun o => prep_values (model_fields m) o prep)).flatten)

/-- `assignments = ",".join("%(f)s=nv.%(f)s" % ... for f in update_fields)`. -/
def assignments (qn : String → String) (m : Model) (keys skip_for_update : List String) : String :=
  joinSep "," ((update_fields m keys skip_for_update).map
    (fun f => qn f.column ++ "=nv." ++ qn f.column))

/-- `where_keys = " AND ".join("m.%(f)s=nv.%(f)s" % ... for f in key_fields)`. -/
def where_keys (qn : String → String) (m : Model) (keys : List String) : String :=
  joinSep " AND " ((key_fields m keys).map
    (fun f => "m." ++ qn f.column ++ "=nv." ++ qn f.column))

/-- `up_where_keys = " AND ".join("up.%(f)s=new_values.%(f)s" % ... for f in key_fields)`. -/
def up_where_keys (qn : String → String) (m : Model) (keys : List String) : String :=
  joinSep " AND " ((key_fields m keys).map
    (fun f => "up." ++ qn f.column ++ "=new_values." ++ qn f.column))

/-- The statement template of lines 101-120 of `bulk.py`, with the named
`%(...)s` holes replaced by the computed pieces, whitespace preserved
byte-for-byte from the source's triple-quoted string. -/
def sql (qn : String → String) (m : Model) (keys skip_for_update : List String) (n : Nat) : String :=
  "\n        WITH new_values (" ++ all_col_names qn m ++ ") AS (\n          VALUES\n            "
    ++ placeholders m n
    ++ "\n        ),\n        upsert AS\n        (\n            UPDATE " ++ m.dbTable
    ++ " m\n                SET " ++ assignments qn m keys skip_for_update
    ++ "\n            FROM new_values nv\n            WHERE " ++ where_keys qn m keys
    ++ "\n            RETURNING m.*\n        )\n        INSERT INTO " ++ m.dbTable
    ++ " (" ++ all_col_names qn m ++ ")\n        SELECT " ++ all_col_names qn m
    ++ "\n        FROM new_values\n        WHERE NOT EXISTS (SELECT 1\n                          FROM upsert up\n                          WHERE "
    ++ up_where_keys qn m keys ++ ")\n    "

/-- `insert_or_update_many(model, objects, keys, skip_for_update, using)`.
The ambient connection lookup `connections[using]` is represented by the two
Django-supplied operations it is used for: `qn` (`con.ops.quote_name`) and
`prep` (field value preparation against that connection); `f.db_type(con)`
is the `dbType` attribute of the embedded field.  The body mirrors the
source's control flow: return immediately on falsy `objects`; resolve
`keys`; fail the `assert key_fields` precondition when no key field
resolves; otherwise build the statement and parameters, execute once, then
call `transaction.commit_unless_managed()`. -/
def insert_or_update_many {α V : Type} (m : Model) (objects : List α)
    (keys : Option (List String)) (skip_for_update : List String)
    (qn : String → String) (prep : DbField → α → V) : CallResult V :=
  if objects.isEmpty then
    .earlyReturn
  else
    let ks := resolve_keys m keys
    if (key_fields m ks).isEmpty then
      .preconditionError
    else
      .done [.execute (sql qn m ks skip_for_update objects.length) (parameters m objects prep),
             .commitUnlessManaged]

/-- Predicate: the effect is a statement execution against the connection. -/
def Effect.isExecute {V : Type} : Effect V → Bool
  | .execute _ _ => true
  | _ => false

/-- Predicate: the effect is savepoint or rollback transaction control, which
the specification says this function never performs. -/
def Effect.isSaveOrRollback {V : Type} : Effect V → Bool
  | .savepoint => true
  | .rollback => true
  | _ => false

/-- Modelled from the spec: Django's `transaction.commit_unless_managed()`
(framework code, not part of this repository) forces a commit on a
non-autocommit connection exactly when no commit is already pending, i.e.
when the transaction is not under explicit management. -/
def commit_unless_managed (commitPending : Bool) : Bool :=
  !commitPending

/-- Whether running the effect trace performs a commit, given whether a
commit was already pending on the (non-autocommit) connection. -/
def commits_after {V : Type} (trace : List (Effect V)) (commitPending : Bool) : Bool :=
  trace.any (fun e =>
    match e with
    | .commitUnlessManaged => commit_unless_managed commitPending
    | _ => false)

/-- Key tuple of a row: the row's values at the key column positions.  Rows
are value lists in `all_fields` column order (the `VALUES` column order of
the generated statement); `keyIdxs` lists the positions of the key columns
in that order. -/
def key_of {V : Type} [Inhabited V] (keyIdxs : List Nat) (row : List V) : List V :=
  keyIdxs.map (fun i => row.getD i default)

/-- One application of the statement's `SET` list to a matched target row:
every update column takes the staged row's value, every other column keeps
the target row's value. -/
def set_cols {V : Type} [Inhabited V] (updIdxs : List Nat) (nv row : List V) : List V :=
  (List.range row.length).map
    (fun i => if updIdxs.contains i then nv.getD i default else row.getD i default)

/-- Effect of the statement's UPDATE part on one target-table row: if some
staged row matches it on the key columns (the first such, when several do),
the SET list is applied from that staged row; otherwise the row is kept
unchanged. -/
def upd_row {V : Type} [DecidableEq V] [Inhabited V] (keyIdxs updIdxs : List Nat)
    (newRows : List (List V)) (row : List V) : List V :=
  match newRows.find? (fun nv => key_of keyIdxs nv == key_of keyIdxs row) with
  | some nv => set_cols updIdxs nv row
  | none => row

/-- The `RETURNING m.*` row set of the statement's UPDATE part: the
post-update values of exactly the target rows some staged row matched. -/
def upsert_returning {V : Type} [DecidableEq V] [Inhabited V] (keyIdxs updIdxs : List Nat)
    (newRows table : List (List V)) : List (List V) :=
  table.filterMap (fun row =>
    (newRows.find? (fun nv => key_of keyIdxs nv == key_of keyIdxs row)).map
      (fun nv => set_cols updIdxs nv row))

/-- Modelled from the spec: the database engine's evaluation of the generated
statement is not part of this repository; sections 4.1 and 6 of the
specification describe it as (i) staging the records as the row set
`new_values`, (ii) updating every target-table row joined to `new_values` on
equality of all key columns, setting the update columns from the staged row
and returning the updated rows as `upsert` (when several staged rows match
one target row the engine uses an unspecified one; this model takes the
first), and (iii) inserting, in order, every staged row whose key tuple does
not match any `upsert` row.  Tables and staged rows are value lists in the
`VALUES` column order; `keyIdxs` and `updIdxs` are the positions of the key
fields and update fields in that order.  `upd_row` is the per-target-row
effect of part (ii) and `upsert_returning` its `RETURNING m.*` row set. -/
def run_upsert {V : Type} [DecidableEq V] [Inhabited V] (keyIdxs updIdxs : List Nat)
    (newRows table : List (List V)) : List (List V) :=
  table.map (upd_row keyIdxs updIdxs newRows)
    ++ newRows.filter (fun nv =>
        !((upsert_returning keyIdxs updIdxs newRows table).any
            (fun up => key_of keyIdxs up == key_of keyIdxs nv)))

/-- The first part of the statement shape required by the specification: a
WITH clause defining `new_values` over all columns as a VALUES list with one
placeholder tuple per record. -/
def shape_with_clause (qn : String → String) (m : Model) (n : Nat) : String :=
  "\n        WITH new_values (" ++ all_col_names qn m
    ++ ") AS (\n          VALUES\n            " ++ placeholders m n ++ "\n        ),"

/-- The second part of the statement shape required by the specification: a
CTE named `upsert` holding an UPDATE of the target table aliased `m`, joined
to `new_values` aliased `nv` on equality of all key columns, with one SET
assignment per update column, returning the updated rows. -/
def shape_upsert_cte (qn : String → String) (m : Model) (keys skip_for_update : List String) : String :=
  "\n        upsert AS\n        (\n            UPDATE " ++ m.dbTable
    ++ " m\n                SET " ++ assignments qn m keys skip_for_update
    ++ "\n            FROM new_values nv\n            WHERE " ++ where_keys qn m keys
    ++ "\n            RETURNING m.*\n        )"

/-- The third part of the statement shape required by the specification: an
INSERT of all columns selecting from `new_values` the rows for which no
`upsert` row matches on all key columns. -/
def shape_insert_tail (qn : String → String) (m : Model) (keys : List String) : String :=
  "\n        INSERT INTO " ++ m.dbTable ++ " (" ++ all_col_names qn m
    ++ ")\n        SELECT " ++ all_col_names qn m
    ++ "\n        FROM new_values\n        WHERE NOT EXISTS (SELECT 1\n                          FROM upsert up\n                          WHERE "
    ++ up_where_keys qn m keys ++ ")\n    "

/-- Sample column: a serial (auto-increment) primary key, as in the spec's
`widgets(id PK, sku, qty)` scenario. -/
def widget_id : DbField :=
  { name := "id", column := "id", dbType := "serial", isAuto := true }

/-- Sample column: the `sku` text key column of the spec's scenario. -/
def widget_sku : DbField :=
  { name := "sku", column := "sku", dbType := "text", isAuto := false }

/-- Sample column: the `qty` integer column of the spec's scenario. -/
def widget_qty : DbField :=
  { name := "qty", column := "qty", dbType := "integer", isAuto := false }

/-- Sample column: the `created_at` timestamp column used by the spec's
`excluded_update_fields` scenario. -/
def widget_created_at : DbField :=
  { name := "created_at", column := "created_at", dbType := "timestamp", isAuto := false }

/-- The spec's sample `widgets` table as a model. -/
def widgets : Model :=
  { fields := [widget_id, widget_sku, widget_qty, widget_created_at],
    pkName := "id", dbTable := "widgets" }

/-- Identity quoting, standing in for `con.ops.quote_name` in the samples. -/
def sample_qn : String → String := fun s => s

/-- Sample value preparation: objects are bare numbers and each field prepares
a number derived from the field name and the object. -/
def sample_prep : DbField → Nat → Nat := fun f o => f.name.length * 100 + o

/-- In a field list with pairwise distinct names (a Django model invariant),
a name determines the field. -/
theorem field_name_unique {l : List DbField}
    (hpw : l.Pairwise (fun a b => a.name ≠ b.name)) {f g : DbField}
    (hf : f ∈ l) (hg : g ∈ l) (h : f.name = g.name) : f = g := by
  induction l with
  | nil => cases hf
  | cons x xs ih =>
    rcases List.pairwise_cons.mp hpw with ⟨hx, hxs⟩
    rcases List.mem_cons.mp hf with hf1 | hf2
    · rcases List.mem_cons.mp hg with hg1 | hg2
      · rw [hf1, hg1]
      · exact absurd (hf1 ▸ h) (hx g hg2)
    · rcases List.mem_cons.mp hg with hg1 | hg2
      · exact absurd (hg1 ▸ h.symm) (hx f hf2)
      · exact ih hxs hf2 hg2

/-- A string is a substring of itself (trivial decomposition). -/
theorem sub_refl (x : String) : ∃ a b : String, x = a ++ x ++ b :=
  ⟨"", "", by simp⟩

/-- Substring decompositions survive surrounding concatenation. -/
theorem sub_extend (p q : String) {s x : String}
    (h : ∃ a b : String, s = a ++ x ++ b) :
    ∃ a b : String, p ++ s ++ q = a ++ x ++ b := by
  rcases h with ⟨a, b, hab⟩
  exact ⟨p ++ a, b ++ q, by rw [hab]; simp [String.append_assoc]⟩

/-- Substring decompositions survive appending on the right. -/
theorem sub_appL {s x : String} (t : String)
    (h : ∃ a b : String, s = a ++ x ++ b) :
    ∃ a b : String, s ++ t = a ++ x ++ b := by
  rcases h with ⟨a, b, hab⟩
  exact ⟨a, b ++ t, by rw [hab]; simp [String.append_assoc]⟩

/-- Substring decompositions survive appending on the left. -/
theorem sub_appR {s x : String} (t : String)
    (h : ∃ a b : String, s = a ++ x ++ b) :
    ∃ a b : String, t ++ s = a ++ x ++ b := by
  rcases h with ⟨a, b, hab⟩
  exact ⟨t ++ a, b, by rw [hab]; simp [String.append_assoc]⟩

/-- Every element of the joined list occurs verbatim inside the join. -/
theorem joinSep_mem_sub (sep : String) {l : List String} {x : String}
    (hx : x ∈ l) : ∃ a b : String, joinSep sep l = a ++ x ++ b := by
  induction l with
  | nil => cases hx
  | cons y ys ih =>
    rcases List.mem_cons.mp hx with h1 | h2
    · subst h1
      cases ys with
      | nil => exact sub_refl x
      | cons z zs => exact sub_appL _ (sub_appL _ (sub_refl x))
    · cases ys with
      | nil => cases h2
      | cons z zs =>
        have := ih h2
        show ∃ a b : String, y ++ sep ++ joinSep sep (z :: zs) = a ++ x ++ b
        exact sub_appR (y ++ sep) this

/-- Character count of a separator-free join is the sum of the counts. -/
theorem count_joinSep (c : Char) (sep : String) (hsep : sep.data.count c = 0)
    (l : List String) :
    (joinSep sep l).data.count c = (l.map (fun s => s.data.count c)).sum := by
  induction l with
  | nil => rfl
  | cons x xs ih =>
    cases xs with
    | nil => simp [joinSep]
    | cons y ys =>
      show ((x ++ sep ++ joinSep sep (y :: ys)).data.count c) = _
      rw [String.data_append, String.data_append, List.count_append,
        List.count_append, hsep, ih]
      simp [Nat.add_assoc]

/-- Applying the SET list preserves the row's length. -/
theorem set_cols_length {V : Type} [Inhabited V] (u : List Nat) (nv row : List V) :
    (set_cols u nv row).length = row.length := by
  simp [set_cols]

/-- Entry of a row after applying the SET list. -/
theorem set_cols_getD {V : Type} [Inhabited V] (u : List Nat) (nv row : List V) (i : Nat) :
    (set_cols u nv row).getD i default =
      if i < row.length then
        (if u.contains i then nv.getD i default else row.getD i default)
      else default := by
  by_cases h : i < row.length
  · have hlen : i < (set_cols u nv row).length := by rw [set_cols_length]; exact h
    rw [List.getD_eq_getElem _ _ hlen]
    simp only [set_cols, List.getElem_map, List.getElem_range, if_pos h]
  · rw [List.getD_eq_default, if_neg h]
    rw [set_cols_length]
    omega

/-- Rows with equal key tuples agree entrywise on the key positions. -/
theorem key_of_eq_getD {V : Type} [Inhabited V] {k : List Nat} {a b : List V}
    (h : key_of k a = key_of k b) : ∀ i ∈ k, a.getD i default = b.getD i default := by
  intro i hi
  exact List.map_eq_map_iff.mp h i hi

/-- Updating a matched row does not change its key tuple: on a key position
the SET list either leaves the target value or writes the staged value, and
the two are equal because the rows matched on the key. -/
theorem key_of_set_cols {V : Type} [Inhabited V] {k : List Nat} (u : List Nat)
    {nv row : List V} (h : key_of k nv = key_of k row) :
    key_of k (set_cols u nv row) = key_of k row := by
  unfold key_of
  apply List.map_congr_left
  intro i hi
  rw [set_cols_getD]
  by_cases hlt : i < row.length
  · rw [if_pos hlt]
    by_cases hc : u.contains i
    · rw [if_pos hc]
      exact key_of_eq_getD h i hi
    · rw [if_neg hc]
  · rw [if_neg hlt]
    rw [List.getD_eq_default]
    omega

/-- When the update positions together with entrywise agreement elsewhere
cover the whole row, applying the SET list rewrites the target row into the
staged row. -/
theorem set_cols_eq_nv {V : Type} [Inhabited V] {u : List Nat} {nv row : List V}
    (hlen : nv.length = row.length)
    (h : ∀ i, i < row.length → u.contains i = true ∨ row.getD i default = nv.getD i default) :
    set_cols u nv row = nv := by
  apply List.ext_getElem
  · rw [set_cols_length, hlen]
  intro n h1 h2
  rw [set_cols_length] at h1
  have hget : (set_cols u nv row).getD n default = nv.getD n default := by
    rw [set_cols_getD, if_pos h1]
    rcases h n h1 with hc | he
    · rw [if_pos hc]
    · by_cases hc : u.contains n
      · rw [if_pos hc]
      · rw [if_neg hc, he]
  have hl : n < (set_cols u nv row).length := by rw [set_cols_length]; exact h1
  rw [List.getD_eq_getElem _ _ hl, List.getD_eq_getElem _ _ h2] at hget
  exact hget

/-- Applying the same SET list twice is the same as applying it once. -/
theorem set_cols_absorb {V : Type} [Inhabited V] (u : List Nat) (nv row : List V) :
    set_cols u nv (set_cols u nv row) = set_cols u nv row := by
  apply List.ext_getElem
  · rw [set_cols_length, set_cols_length]
  intro n h1 h2
  rw [set_cols_length, set_cols_length] at h1
  have h2' : n < (set_cols u nv row).length := by rw [set_cols_length]; exact h1
  have e1 : (set_cols u nv (set_cols u nv row)).getD n default
      = if u.contains n then nv.getD n default else (set_cols u nv row).getD n default := by
    rw [set_cols_getD u nv (set_cols u nv row) n, if_pos h2']
  have e2 : (set_cols u nv row).getD n default
      = if u.contains n then nv.getD n default else row.getD n default := by
    rw [set_cols_getD u nv row n, if_pos h1]
  have lhs : (set_cols u nv (set_cols u nv row)).getD n default
      = (set_cols u nv row).getD n default := by
    by_cases hc : u.contains n
    · rw [e1, e2, if_pos hc, if_pos hc]
    · rw [e1, if_neg hc]
  have ho : n < (set_cols u nv (set_cols u nv row)).length := by
    rw [set_cols_length, set_cols_length]; exact h1
  rw [List.getD_eq_getElem _ _ ho, List.getD_eq_getElem _ _ h2'] at lhs
  exact lhs

/-- Applying a row's own values as the SET list leaves the row unchanged. -/
theorem set_cols_self {V : Type} [Inhabited V] (u : List Nat) (nv : List V) :
    set_cols u nv nv = nv := by
  apply List.ext_getElem
  · rw [set_cols_length]
  intro n h1 h2
  rw [set_cols_length] at h1
  have : (set_cols u nv nv).getD n default = nv.getD n default := by
    rw [set_cols_getD, if_pos h1]
    by_cases hc : u.contains n
    · rw [if_pos hc]
    · rw [if_neg hc]
  rw [List.getD_eq_getElem _ _ h2] at this
  rw [List.getD_eq_getElem] at this
  exact this

/-- Pointwise-equal predicates find the same element. -/
theorem find?_congr_pred {α : Type} {p q : α → Bool} (h : ∀ a, p a = q a)
    (l : List α) : l.find? p = l.find? q := by
  induction l with
  | nil => rfl
  | cons x xs ih =>
    rw [List.find?_cons, List.find?_cons, h x]
    cases q x with
    | true => rfl
    | false => exact ih

/-- In a staged-row list with pairwise distinct key tuples, searching for a
member's key tuple finds exactly that member. -/
theorem find?_key_unique {V : Type} [DecidableEq V] [Inhabited V] (k : List Nat)
    {l : List (List V)} {r : List V}
    (hpw : l.Pairwise (fun a b => key_of k a ≠ key_of k b)) (hr : r ∈ l) :
    l.find? (fun nv => key_of k nv == key_of k r) = some r := by
  induction l with
  | nil => cases hr
  | cons x xs ih =>
    rcases List.pairwise_cons.mp hpw with ⟨hx, hxs⟩
    rw [List.find?_cons]
    rcases List.mem_cons.mp hr with h1 | h2
    · subst h1
      simp
    · have hne : key_of k x ≠ key_of k r := hx r h2
      have : (key_of k x == key_of k r) = false := by
        exact beq_eq_false_iff_ne.mpr hne
      rw [this]
      exact ih hxs h2

/-- In a row list with pairwise distinct key tuples, filtering for a member's
key tuple yields exactly that member. -/
theorem filter_key_unique {V : Type} [DecidableEq V] [Inhabited V] (k : List Nat)
    {l : List (List V)} {r : List V}
    (hpw : l.Pairwise (fun a b => key_of k a ≠ key_of k b)) (hr : r ∈ l) :
    l.filter (fun x => key_of k x == key_of k r) = [r] := by
  induction l with
  | nil => cases hr
  | cons x xs ih =>
    rcases List.pairwise_cons.mp hpw with ⟨hx, hxs⟩
    rw [List.filter_cons]
    rcases List.mem_cons.mp hr with h1 | h2
    · rw [if_pos (by rw [h1]; simp)]
      have hrest : xs.filter (fun y => key_of k y == key_of k r) = [] := by
        rw [List.filter_eq_nil_iff]
        intro a ha
        simp only [beq_iff_eq]
        intro hEq
        rw [h1] at hEq
        exact hx a ha hEq.symm
      rw [hrest, h1]
    · have hne : key_of k x ≠ key_of k r := hx r h2
      rw [if_neg (by simp [hne])]
      exact ih hxs h2

/-- Boolean list membership agrees with propositional membership. -/
theorem contains_mem {α : Type} [BEq α] [LawfulBEq α] (l : List α) (a : α) :
    l.contains a = true ↔ a ∈ l :=
  List.elem_iff

/-- C3: the call fails with the precondition error (the
`assert key_fields, "Empty key fields"`) if and only if `objects` is
non-empty and `key_fields` resolves to no field, and a failing call performs
no effect (no statement is built or executed); when `objects` is empty the
call returns immediately with no effects and no error, whatever `keys` is. -/
theorem precondition_error_iff {α V : Type} (m : Model) (objects : List α)
    (keys : Option (List String)) (skip_for_update : List String)
    (qn : String → String) (prep : DbField → α → V) :
    (insert_or_update_many m objects keys skip_for_update qn prep = .preconditionError
        ↔ objects ≠ [] ∧ key_fields m (resolve_keys m keys) = [])
    ∧ (objects = [] →
        insert_or_update_many m objects keys skip_for_update qn prep = .earlyReturn
          ∧ (insert_or_update_many m objects keys skip_for_update qn prep).effects = [])
    ∧ (insert_or_update_many m objects keys skip_for_update qn prep = .preconditionError →
        (insert_or_update_many m objects keys skip_for_update qn prep).effects = []) := by
  by_cases h1 : objects = []
  · simp [insert_or_update_many, h1, CallResult.effects]
  · by_cases h2 : key_fields m (resolve_keys m keys) = []
    · simp [insert_or_update_many, h1, h2, CallResult.effects]
    · simp [insert_or_update_many, h1, h2, CallResult.effects]

/-- Witness for C3: with `records` empty the call returns immediately. -/
theorem precondition_error_iff_witness :
    insert_or_update_many widgets ([] : List Nat) (some ["sku"]) [] sample_qn sample_prep
      = .earlyReturn :=
  ((precondition_error_iff widgets ([] : List Nat) (some ["sku"]) [] sample_qn
    sample_prep).2.1 rfl).1

/-- C10: with `keys` equal to `None` or the empty list, the key list defaults
to the primary-key name; when the primary key is an `AutoField` (and field
names are distinct, a Django invariant), no field survives the
`key_fields` filter — the name is dropped from `all_field_names` by
`_model_fields` — so any call with non-empty `objects` fails the
`assert key_fields` precondition. -/
theorem auto_pk_default_keys_fail {α V : Type} (m : Model) (objects : List α)
    (keys : Option (List String)) (skip_for_update : List String)
    (qn : String → String) (prep : DbField → α → V)
    (hkeys : keys = none ∨ keys = some [])
    (hobj : objects ≠ [])
    (pk : DbField) (hpk : pk ∈ m.fields) (hpkname : pk.name = m.pkName)
    (hauto : pk.isAuto = true)
    (huniq : m.fields.Pairwise (fun a b => a.name ≠ b.name)) :
    resolve_keys m keys = [m.pkName]
      ∧ key_fields m (resolve_keys m keys) = []
      ∧ insert_or_update_many m objects keys skip_for_update qn prep
          = .preconditionError := by
  have hres : resolve_keys m keys = [m.pkName] := by
    rcases hkeys with h | h <;> simp [resolve_keys, h]
  have hkf : key_fields m [m.pkName] = [] := by
    rw [key_fields, List.filter_eq_nil_iff]
    intro f hf hcond
    rw [Bool.and_eq_true] at hcond
    rcases hcond with ⟨hname, hmem⟩
    rw [contains_mem, List.mem_singleton] at hname
    rw [contains_mem, all_field_names, List.mem_map] at hmem
    rcases hmem with ⟨g, hg, hgname⟩
    rw [model_fields, List.mem_filter] at hg
    rcases hg with ⟨hgmem, hgauto⟩
    have hfpk : f = pk := field_name_unique huniq hf hpk (by rw [hname, hpkname])
    have hgpk : g = pk := field_name_unique huniq hgmem hpk (by rw [hgname, hname, hpkname])
    rw [hgpk, hauto] at hgauto
    simp at hgauto
  refine ⟨hres, hres ▸ hkf, ?_⟩
  simp [insert_or_update_many, hobj, hres, hkf]

/-- Witness for C10: the `widgets` model has a serial primary key, so the
default-keys call with one record fails the precondition. -/
theorem auto_pk_default_keys_fail_witness :
    insert_or_update_many widgets [1] none [] sample_qn sample_prep
      = .preconditionError :=
  (auto_pk_default_keys_fail widgets [1] none [] sample_qn sample_prep
    (Or.inl rfl) (by decide) widget_id (by decide) rfl rfl (by decide)).2.2

/-- C9: a call with non-empty `objects` that passes the key-field
precondition performs exactly the two effects of lines 124-127: one
`cursor.execute(sql, parameters)` and then `transaction.commit_unless_managed()`;
it performs exactly one statement execution, no savepoint and no rollback,
and the trailing commit call forces a commit exactly when none is already
pending on a non-autocommit connection. -/
theorem single_execute_then_commit {α V : Type} (m : Model) (objects : List α)
    (keys : Option (List String)) (skip_for_update : List String)
    (qn : String → String) (prep : DbField → α → V)
    (hobj : objects ≠ [])
    (hkf : key_fields m (resolve_keys m keys) ≠ []) :
    insert_or_update_many m objects keys skip_for_update qn prep =
      .done [.execute (sql qn m (resolve_keys m keys) skip_for_update objects.length)
               (parameters m objects prep), .commitUnlessManaged]
    ∧ ((insert_or_update_many m objects keys skip_for_update qn prep).effects.countP
        Effect.isExecute) = 1
    ∧ ((insert_or_update_many m objects keys skip_for_update qn prep).effects.countP
        Effect.isSaveOrRollback) = 0
    ∧ commits_after (insert_or_update_many m objects keys skip_for_update qn prep).effects
        false = true
    ∧ commits_after (insert_or_update_many m objects keys skip_for_update qn prep).effects
        true = false := by
  have hrun : insert_or_update_many m objects keys skip_for_update qn prep =
      .done [.execute (sql qn m (resolve_keys m keys) skip_for_update objects.length)
               (parameters m objects prep), .commitUnlessManaged] := by
    simp [insert_or_update_many, hobj, hkf]
  refine ⟨hrun, ?_, ?_, ?_, ?_⟩ <;>
    simp [hrun, CallResult.effects, List.countP_cons, Effect.isExecute,
      Effect.isSaveOrRollback, commits_after, commit_unless_managed]

/-- Witness for C9: two records upserted by `sku` execute one statement. -/
theorem single_execute_then_commit_witness :
    ((insert_or_update_many widgets [1, 2] (some ["sku"]) [] sample_qn
        sample_prep).effects.countP Effect.isExecute) = 1 :=
  (single_execute_then_commit widgets [1, 2] (some ["sku"]) [] sample_qn sample_prep
    (by decide) (by decide)).2.1

/-- For a model field, membership of its name in `all_field_names` is exactly
non-auto-ness, provided field names are pairwise distinct (a Django model
invariant). -/
theorem all_field_names_contains (m : Model)
    (huniq : m.fields.Pairwise (fun a b => a.name ≠ b.name))
    {f : DbField} (hf : f ∈ m.fields) :
    (all_field_names m).contains f.name = !f.isAuto := by
  by_cases hauto : f.isAuto
  · rw [hauto]
    show (all_field_names m).contains f.name = false
    rw [← Bool.not_eq_true, contains_mem]
    intro hmem
    rw [all_field_names, List.mem_map] at hmem
    rcases hmem with ⟨g, hg, hgname⟩
    rw [model_fields, List.mem_filter] at hg
    rcases hg with ⟨hgmem, hgauto⟩
    have : g = f := field_name_unique huniq hgmem hf hgname
    rw [this, hauto] at hgauto
    simp at hgauto
  · have hb : f.isAuto = false := by
      cases h : f.isAuto
      · rfl
      · exact absurd h hauto
    rw [hb]
    show (all_field_names m).contains f.name = true
    rw [contains_mem, all_field_names, List.mem_map]
    exact ⟨f, List.mem_filter.mpr ⟨hf, by rw [hb]; rfl⟩, rfl⟩

/-- For a model field, membership of its name among the resolved key fields'
names is exactly the conjunction of the two filter conditions of the
`key_fields` comprehension, provided field names are pairwise distinct. -/
theorem key_field_names_contains (m : Model) (keys : List String)
    (huniq : m.fields.Pairwise (fun a b => a.name ≠ b.name))
    {f : DbField} (hf : f ∈ m.fields) :
    ((key_fields m keys).map (fun g => g.name)).contains f.name
      = (keys.contains f.name && (all_field_names m).contains f.name) := by
  cases hAN : (keys.contains f.name && (all_field_names m).contains f.name) with
  | true =>
    rw [contains_mem, List.mem_map]
    exact ⟨f, List.mem_filter.mpr ⟨hf, hAN⟩, rfl⟩
  | false =>
    rw [← Bool.not_eq_true, contains_mem]
    intro hmem
    rw [List.mem_map] at hmem
    rcases hmem with ⟨g, hg, hgname⟩
    rw [key_fields, List.mem_filter] at hg
    rcases hg with ⟨hgmem, hgcond⟩
    have : g = f := field_name_unique huniq hgmem hf hgname
    rw [this] at hgcond
    rw [hgcond] at hAN
    cases hAN

/-- C4: the update-field list is exactly the table fields (the non-auto
fields `_model_fields` returns, in order) whose names are neither among the
resolved key fields' names nor in `skip_for_update`; and every field named
in `skip_for_update` still occurs in the column list the INSERT clause is
joined from, while it is absent from the list the SET clause is generated
over.  Field names are assumed pairwise distinct (a Django model
invariant). -/
theorem update_fields_partition (m : Model) (keys skip_for_update : List String)
    (huniq : m.fields.Pairwise (fun a b => a.name ≠ b.name)) :
    update_fields m keys skip_for_update
      = (model_fields m).filter
          (fun f => !((key_fields m keys).map (fun g => g.name)).contains f.name
            && !skip_for_update.contains f.name)
    ∧ ∀ (qn : String → String), ∀ f ∈ model_fields m,
        skip_for_update.contains f.name = true →
          (∃ a b : String, all_col_names qn m = a ++ qn f.column ++ b)
          ∧ f ∉ update_fields m keys skip_for_update := by
  constructor
  · rw [update_fields, model_fields, List.filter_filter]
    apply List.filter_congr
    intro f hf
    rw [key_field_names_contains m keys huniq hf, all_field_names_contains m huniq hf]
    cases keys.contains f.name <;> cases skip_for_update.contains f.name
      <;> cases f.isAuto <;> rfl
  · intro qn f hf hskip
    constructor
    · apply joinSep_mem_sub
      rw [List.mem_map]
      exact ⟨f, hf, rfl⟩
    · intro hmem
      rw [update_fields, List.mem_filter] at hmem
      rcases hmem with ⟨hmem1, hcond⟩
      rw [hskip] at hcond
      simp at hcond

/-- Witness for C4: on the `widgets` model with keys `["sku"]` and
`skip_for_update = ["created_at"]`, the update fields are exactly `qty`. -/
theorem update_fields_partition_witness :
    update_fields widgets ["sku"] ["created_at"]
      = (model_fields widgets).filter
          (fun f => !((key_fields widgets ["sku"]).map (fun g => g.name)).contains f.name
            && !(["created_at"] : List String).contains f.name) :=
  (update_fields_partition widgets ["sku"] ["created_at"] (by decide)).1

/-- C8: auto-increment fields survive none of the three field lists the
statement is generated from: `_model_fields` (the source of the INSERT
column list and of every VALUES tuple, via `all_fields`), `key_fields` (the
source of both key-equality comparisons), and `update_fields` (the source of
the SET assignments).  Field names are assumed pairwise distinct. -/
theorem auto_fields_never_listed (m : Model) (keys skip_for_update : List String)
    (huniq : m.fields.Pairwise (fun a b => a.name ≠ b.name)) :
    (∀ f ∈ model_fields m, f.isAuto = false)
    ∧ (∀ f ∈ key_fields m keys, f.isAuto = false)
    ∧ (∀ f ∈ update_fields m keys skip_for_update, f.isAuto = false) := by
  have hbase : ∀ f ∈ m.fields, (all_field_names m).contains f.name = true →
      f.isAuto = false := by
    intro f hf hN
    have := all_field_names_contains m huniq hf
    rw [hN] at this
    cases h : f.isAuto
    · rfl
    · rw [h] at this
      cases this
  refine ⟨?_, ?_, ?_⟩
  · intro f hf
    rw [model_fields, List.mem_filter] at hf
    rcases hf with ⟨_, hcond⟩
    cases h : f.isAuto
    · rfl
    · rw [h] at hcond
      cases hcond
  · intro f hf
    rw [key_fields, List.mem_filter] at hf
    rcases hf with ⟨hmem, hcond⟩
    rw [Bool.and_eq_true] at hcond
    exact hbase f hmem hcond.2
  · intro f hf
    rw [update_fields, List.mem_filter] at hf
    rcases hf with ⟨hmem, hcond⟩
    rw [Bool.and_eq_true] at hcond
    exact hbase f hmem hcond.2

/-- Witness for C8: in the `widgets` model every field surviving
`_model_fields` is non-auto; in particular `sku` is. -/
theorem auto_fields_never_listed_witness :
    widget_sku.isAuto = false :=
  (auto_fields_never_listed widgets ["sku"] [] (by decide)).1 widget_sku (by decide)

/-- C2: the generated statement is bit-exactly the specified three-part
shape: the `WITH new_values (<all columns>) AS (VALUES ...)` clause over one
cast placeholder tuple per record, then the `upsert` CTE updating the target
table aliased `m` joined to `new_values` aliased `nv` on equality of all key
columns with one SET assignment per update column and `RETURNING m.*`, then
the INSERT of all columns selecting from `new_values` the rows with no
key-matching `upsert` row. -/
theorem sql_is_with_upsert_insert (qn : String → String) (m : Model)
    (keys skip_for_update : List String) (n : Nat) :
    sql qn m keys skip_for_update n
      = shape_with_clause qn m n ++ shape_upsert_cte qn m keys skip_for_update
          ++ shape_insert_tail qn m keys := by
  have e1 : ∀ r : List Char,
      ("\n        )," : String).data
          ++ (("\n        upsert AS\n        (\n            UPDATE " : String).data ++ r)
        = ("\n        ),\n        upsert AS\n        (\n            UPDATE " : String).data
            ++ r := by
    intro r
    rw [← List.append_assoc]
    congr 1
  have e2 : ∀ r : List Char,
      ("\n            RETURNING m.*\n        )" : String).data
          ++ (("\n        INSERT INTO " : String).data ++ r)
        = ("\n            RETURNING m.*\n        )\n        INSERT INTO " : String).data
            ++ r := by
    intro r
    rw [← List.append_assoc]
    congr 1
  apply String.ext
  simp only [sql, shape_with_clause, shape_upsert_cte, shape_insert_tail,
    String.data_append, List.append_assoc, e1, e2]

/-- Character count of the placeholder tuple: one percent sign per column,
provided no declared database type contains one. -/
theorem count_pct_tuple (m : Model)
    (hpc : ∀ f ∈ model_fields m, f.dbType.data.count '%' = 0) :
    (tuple_placeholder m).data.count '%' = (model_fields m).length := by
  rw [tuple_placeholder, String.data_append, String.data_append, List.count_append,
    List.count_append, count_joinSep '%' "," (by decide)]
  have hmap : ((model_fields m).map (fun f => "%s::" ++ f.dbType)).map
      (fun s => s.data.count '%') = (model_fields m).map (fun _ => 1) := by
    rw [List.map_map]
    apply List.map_congr_left
    intro f hf
    show (("%s::" ++ f.dbType) : String).data.count '%' = 1
    rw [String.data_append, List.count_append, hpc f hf]
    decide
  rw [hmap]
  have hsum : ∀ l : List DbField, (l.map (fun _ => 1)).sum = l.length := by
    intro l
    induction l with
    | nil => rfl
    | cons x xs ih => simp [ih, Nat.add_comm]
  rw [hsum]
  have h1 : List.count '%' ("(" : String).data = 0 := by decide
  have h2 : List.count '%' (")" : String).data = 0 := by decide
  omega

/-- Character count of the whole VALUES placeholder list: records times
columns, provided no declared database type contains a percent sign. -/
theorem count_pct_placeholders (m : Model) (n : Nat)
    (hpc : ∀ f ∈ model_fields m, f.dbType.data.count '%' = 0) :
    (placeholders m n).data.count '%' = n * (model_fields m).length := by
  rw [placeholders, count_joinSep '%' "," (by decide)]
  induction n with
  | zero => simp
  | succ k ih =>
    rw [List.replicate_succ, List.map_cons, List.sum_cons, ih,
      count_pct_tuple m hpc, Nat.succ_mul, Nat.add_comm]

/-- Element of a flattening of equal-length rows, by row and column index. -/
theorem flatten_rows_getD {V : Type} [Inhabited V] (rows : List (List V)) (F : Nat)
    (hF : ∀ r ∈ rows, r.length = F) :
    ∀ i j, i < rows.length → j < F →
      rows.flatten.getD (i * F + j) default = (rows.getD i []).getD j default := by
  induction rows with
  | nil => intro i j hi _; cases hi
  | cons r rest ih =>
    intro i j hi hj
    have hr : r.length = F := hF r (List.mem_cons_self r rest)
    cases i with
    | zero =>
      show (r ++ rest.flatten).getD (0 * F + j) default = _
      rw [Nat.zero_mul, Nat.zero_add, List.getD_append]
      · rfl
      · rw [hr]; exact hj
    | succ k =>
      show (r ++ rest.flatten).getD ((k + 1) * F + j) default = _
      rw [List.getD_append_right]
      · rw [hr]
        have harith : (k + 1) * F + j - F = k * F + j := by
          rw [Nat.succ_mul]
          omega
        rw [harith]
        have := ih (fun s hs => hF s (List.mem_cons_of_mem r hs)) k j
          (Nat.lt_of_succ_lt_succ hi) hj
        rw [this]
        rfl
      · rw [hr, Nat.succ_mul]
        omega

/-- C5: the cursor parameters are the per-record prepared value tuples
flattened record-major then field-major; their count equals the placeholder
count of the generated VALUES list (records times columns, one `%s` per
column per record, counting percent signs under the assumption that no
declared database type contains one); and the parameter at flat position
`i*F + j` is record `i`'s value for field `j`. -/
theorem parameters_record_major {α V : Type} [Inhabited α] [Inhabited V]
    (m : Model) (objects : List α) (prep : DbField → α → V)
    (hpc : ∀ f ∈ model_fields m, f.dbType.data.count '%' = 0) :
    parameters m objects prep
        = objects.flatMap (fun o => (model_fields m).map (fun f => prep f o))
    ∧ (parameters m objects prep).length = objects.length * (model_fields m).length
    ∧ (placeholders m objects.length).data.count '%'
        = objects.length * (model_fields m).length
    ∧ ∀ i j, i < objects.length → j < (model_fields m).length →
        (parameters m objects prep).getD (i * (model_fields m).length + j) default
          = prep ((model_fields m).getD j default) (objects.getD i default) := by
  refine ⟨?_, ?_, count_pct_placeholders m objects.length hpc, ?_⟩
  · rw [List.flatMap_def]
    rfl
  · rw [parameters, List.length_flatten, List.map_map]
    have : (objects.map (fun o => (prep_values (model_fields m) o prep).length))
        = objects.map (fun _ => (model_fields m).length) := by
      apply List.map_congr_left
      intro o _
      rw [prep_values, List.length_map]
    rw [Function.comp_def, this]
    induction objects with
    | nil => simp
    | cons x xs ih => simp [ih, Nat.succ_mul, Nat.add_comm]
  · intro i j hi hj
    have hrows : ∀ r ∈ objects.map (fun o => prep_values (model_fields m) o prep),
        r.length = (model_fields m).length := by
      intro r hr
      rw [List.mem_map] at hr
      rcases hr with ⟨o, _, hro⟩
      rw [← hro, prep_values, List.length_map]
    rw [parameters, flatten_rows_getD _ _ hrows i j (by rw [List.length_map]; exact hi) hj]
    have hobj : i < objects.length := hi
    have hmap : i < (objects.map (fun o => prep_values (model_fields m) o prep)).length := by
      rw [List.length_map]; exact hi
    rw [List.getD_eq_getElem _ _ hmap, List.getElem_map]
    rw [prep_values]
    have hjm : j < ((model_fields m).map (fun f => prep f objects[i])).length := by
      rw [List.length_map]; exact hj
    rw [List.getD_eq_getElem _ _ hjm, List.getElem_map,
      List.getD_eq_getElem objects default hobj,
      List.getD_eq_getElem (model_fields m) default hj]

/-- Witness for C5: two `widgets` records yield two percent signs per row of
three columns. -/
theorem parameters_record_major_witness :
    (placeholders widgets 2).data.count '%' = 2 * (model_fields widgets).length :=
  (parameters_record_major widgets [1, 2] sample_prep (by decide)).2.2.1

/-- Substring decompositions compose. -/
theorem sub_trans {s t x : String}
    (h1 : ∃ a b : String, s = a ++ t ++ b)
    (h2 : ∃ a b : String, t = a ++ x ++ b) :
    ∃ a b : String, s = a ++ x ++ b := by
  rcases h1 with ⟨a, b, hab⟩
  rcases h2 with ⟨c, d, hcd⟩
  exact ⟨a ++ c, d ++ b, by rw [hab, hcd]; simp [String.append_assoc]⟩

/-- C6: in the generated VALUES list every placeholder of every record's
tuple carries a cast to its column's declared database type: the tuple
literal contains `%s::<db_type j>` for each column `j`, every one of the `n`
rows of the VALUES list is that same tuple literal, and in particular the
full statement contains the cast of column 1 of the first row verbatim. -/
theorem every_placeholder_cast (m : Model) (qn : String → String)
    (keys skip_for_update : List String) (n : Nat) :
    (∀ j (hj : j < (model_fields m).length),
        ∃ a b : String, tuple_placeholder m
          = a ++ ("%s::" ++ ((model_fields m).get ⟨j, hj⟩).dbType) ++ b)
    ∧ (∀ r, r < n → ∃ a b : String, placeholders m n = a ++ tuple_placeholder m ++ b)
    ∧ (0 < n → ∀ hF : 0 < (model_fields m).length,
        ∃ a b : String, sql qn m keys skip_for_update n
          = a ++ ("%s::" ++ ((model_fields m).get ⟨0, hF⟩).dbType) ++ b) := by
  have hpart1 : ∀ j (hj : j < (model_fields m).length),
      ∃ a b : String, tuple_placeholder m
        = a ++ ("%s::" ++ ((model_fields m).get ⟨j, hj⟩).dbType) ++ b := by
    intro j hj
    rw [tuple_placeholder]
    apply sub_appL
    apply sub_appR
    apply joinSep_mem_sub
    rw [List.mem_map]
    exact ⟨(model_fields m).get ⟨j, hj⟩, List.get_mem _ _ hj, rfl⟩
  have hpart2 : ∀ r, r < n →
      ∃ a b : String, placeholders m n = a ++ tuple_placeholder m ++ b := by
    intro r hr
    rw [placeholders]
    apply joinSep_mem_sub
    rw [List.mem_replicate]
    exact ⟨by omega, rfl⟩
  refine ⟨hpart1, hpart2, ?_⟩
  intro hn hF
  have hph : ∃ a b : String, placeholders m n
      = a ++ ("%s::" ++ ((model_fields m).get ⟨0, hF⟩).dbType) ++ b :=
    sub_trans (hpart2 0 hn) (hpart1 0 hF)
  rw [sql]
  apply sub_appL
  apply sub_appL
  apply sub_appL
  apply sub_appL
  apply sub_appL
  apply sub_appL
  apply sub_appL
  apply sub_appL
  apply sub_appL
  apply sub_appL
  apply sub_appL
  apply sub_appL
  apply sub_appL
  apply sub_appL
  apply sub_appL
  apply sub_appR
  exact hph

/-- Witness for C6: the one-row statement for `widgets` contains the cast
`%s::text` of its first (non-auto) column. -/
theorem every_placeholder_cast_witness :
    ∃ a b : String, sql sample_qn widgets ["sku"] [] 1
      = a ++ ("%s::" ++ ((model_fields widgets).get ⟨0, by decide⟩).dbType) ++ b :=
  (every_placeholder_cast widgets sample_qn ["sku"] [] 1).2.2 (by decide) (by decide)

/-- Updating a target row never changes its key tuple. -/
theorem upd_row_key {V : Type} [DecidableEq V] [Inhabited V] (k u : List Nat)
    (newRows : List (List V)) (row : List V) :
    key_of k (upd_row k u newRows row) = key_of k row := by
  cases hfind : newRows.find? (fun nv => key_of k nv == key_of k row) with
  | none => simp only [upd_row, hfind]
  | some nv =>
    simp only [upd_row, hfind]
    have hp0 := List.find?_some hfind
    have hp : (key_of k nv == key_of k row) = true := hp0
    exact key_of_set_cols u (beq_iff_eq.mp hp)

/-- When the staged rows have pairwise distinct keys and the target row's key
equals member `r`'s key, the UPDATE applies exactly `r`'s SET list. -/
theorem upd_row_key_match {V : Type} [DecidableEq V] [Inhabited V] (k u : List Nat)
    {newRows : List (List V)} {r row : List V}
    (hpw : newRows.Pairwise (fun a b => key_of k a ≠ key_of k b))
    (hr : r ∈ newRows) (hkey : key_of k row = key_of k r) :
    upd_row k u newRows row = set_cols u r row := by
  have h1 : newRows.find? (fun nv => key_of k nv == key_of k row) = some r := by
    rw [find?_congr_pred
      (fun a => (by rw [hkey] :
        (key_of k a == key_of k row) = (key_of k a == key_of k r))) newRows]
    exact find?_key_unique k hpw hr
  simp only [upd_row, h1]

/-- When no staged row matches the target row's key, the UPDATE leaves it
unchanged. -/
theorem upd_row_no_match {V : Type} [DecidableEq V] [Inhabited V] (k u : List Nat)
    {newRows : List (List V)} {row : List V}
    (hno : ∀ nv ∈ newRows, key_of k nv ≠ key_of k row) :
    upd_row k u newRows row = row := by
  have h1 : newRows.find? (fun nv => key_of k nv == key_of k row) = none := by
    rw [List.find?_eq_none]
    intro nv hnv
    simp [beq_iff_eq]
    exact hno nv hnv
  simp only [upd_row, h1]

/-- Filtering the updated target rows for a staged member's key: exactly the
member itself when some target row carried that key, nothing otherwise.
Requires pairwise distinct keys in both the staged batch and the table, rows
of uniform length, and update positions covering every non-key position. -/
theorem filter_updated_eq {V : Type} [DecidableEq V] [Inhabited V]
    (k u : List Nat) (newRows : List (List V)) (L : Nat) (r : List V)
    (hr : r ∈ newRows)
    (hpwNew : newRows.Pairwise (fun a b => key_of k a ≠ key_of k b))
    (hrL : r.length = L)
    (hcov : ∀ i, i < L → u.contains i = true ∨ k.contains i = true) :
    ∀ t : List (List V), (∀ row ∈ t, row.length = L) →
      t.Pairwise (fun a b => key_of k a ≠ key_of k b) →
      (t.map (upd_row k u newRows)).filter (fun x => key_of k x == key_of k r)
        = if t.any (fun row => key_of k row == key_of k r) then [r] else [] := by
  intro t
  induction t with
  | nil => intro _ _; simp
  | cons row rest ih =>
    intro hLt hpw
    rcases List.pairwise_cons.mp hpw with ⟨hhead, htail⟩
    rw [List.map_cons, List.filter_cons, List.any_cons]
    by_cases hkey : key_of k row = key_of k r
    · have hupd : upd_row k u newRows row = r := by
        rw [upd_row_key_match k u hpwNew hr hkey]
        apply set_cols_eq_nv
        · rw [hrL, hLt row (List.mem_cons_self row rest)]
        · intro i hi
          rw [hLt row (List.mem_cons_self row rest)] at hi
          rcases hcov i hi with hu | hk
          · exact Or.inl hu
          · exact Or.inr (key_of_eq_getD hkey i ((contains_mem k i).mp hk))
      have hP : (key_of k (upd_row k u newRows row) == key_of k r) = true := by
        rw [hupd]
        simp
      rw [if_pos hP]
      have hcondtrue : (key_of k row == key_of k r) = true := beq_iff_eq.mpr hkey
      have hrest : (rest.map (upd_row k u newRows)).filter
          (fun x => key_of k x == key_of k r) = [] := by
        rw [List.filter_eq_nil_iff]
        intro x hx
        rw [List.mem_map] at hx
        rcases hx with ⟨row2, hrow2, hx⟩
        rw [← hx, upd_row_key]
        have hne : key_of k row ≠ key_of k row2 := hhead row2 hrow2
        simp only [beq_iff_eq]
        intro hEq
        exact hne (hkey.trans hEq.symm)
      rw [hupd, hrest, hcondtrue]
      simp
    · have hP : (key_of k (upd_row k u newRows row) == key_of k r) = false := by
        rw [upd_row_key]
        exact beq_eq_false_iff_ne.mpr hkey
      rw [if_neg (by simp [hP])]
      rw [ih (fun s hs => hLt s (List.mem_cons_of_mem row hs)) htail]
      have hcondfalse : (key_of k row == key_of k r) = false := beq_eq_false_iff_ne.mpr hkey
      rw [hcondfalse]
      simp

/-- Some returned UPDATE row carries a staged member's key exactly when some
target-table row carries it (returned rows keep the matched key). -/
theorem returning_any_eq {V : Type} [DecidableEq V] [Inhabited V]
    (k u : List Nat) (newRows table : List (List V)) (r : List V)
    (hr : r ∈ newRows)
    (hpwNew : newRows.Pairwise (fun a b => key_of k a ≠ key_of k b)) :
    (upsert_returning k u newRows table).any (fun up => key_of k up == key_of k r)
      = table.any (fun row => key_of k row == key_of k r) := by
  cases htab : table.any (fun row => key_of k row == key_of k r) with
  | true =>
    rw [List.any_eq_true] at htab
    rcases htab with ⟨row, hrow, hkeq⟩
    have hkey : key_of k row = key_of k r := beq_iff_eq.mp hkeq
    rw [List.any_eq_true]
    refine ⟨set_cols u r row, ?_, ?_⟩
    · rw [upsert_returning, List.mem_filterMap]
      refine ⟨row, hrow, ?_⟩
      have h1 : newRows.find? (fun nv => key_of k nv == key_of k row) = some r := by
        rw [find?_congr_pred
          (fun a => (by rw [hkey] :
            (key_of k a == key_of k row) = (key_of k a == key_of k r))) newRows]
        exact find?_key_unique k hpwNew hr
      rw [h1]
      rfl
    · rw [key_of_set_cols u hkey.symm, hkey]
      simp
  | false =>
    apply Bool.eq_false_iff.mpr
    intro hany
    rw [List.any_eq_true] at hany
    rcases hany with ⟨up, hup, hkeq⟩
    rw [upsert_returning, List.mem_filterMap] at hup
    rcases hup with ⟨row, hrow, hmap⟩
    cases hfind : newRows.find? (fun nv => key_of k nv == key_of k row) with
    | none => rw [hfind] at hmap; cases hmap
    | some nv =>
      rw [hfind] at hmap
      have hup2 : up = set_cols u nv row := by
        have := hmap
        simp at this
        exact this.symm
      have hkeyrow : key_of k up = key_of k row := by
        rw [hup2]
        have hp0 := List.find?_some hfind
        have hp : (key_of k nv == key_of k row) = true := hp0
        exact key_of_set_cols u (beq_iff_eq.mp hp)
      have : table.any (fun x => key_of k x == key_of k r) = true := by
        rw [List.any_eq_true]
        exact ⟨row, hrow, by rw [← hkeyrow]; exact hkeq⟩
      rw [htab] at this
      cases this

/-- C1 (amended): with key tuples unique within the batch, no concurrent
writers (the modelled engine runs the statement alone), no excluded update
fields (update positions cover every non-key position), uniform row length,
and — the amendment — at most one pre-existing table row per key tuple,
every record's key tuple maps to exactly one row of the resulting table, and
that row carries exactly the record's values: a key-matching row is updated
exactly once into the record, a non-matching record is inserted exactly
once. -/
theorem upsert_roundtrip {V : Type} [DecidableEq V] [Inhabited V]
    (keyIdxs updIdxs : List Nat) (newRows table : List (List V)) (L : Nat)
    (hLnew : ∀ nv ∈ newRows, nv.length = L)
    (hLtab : ∀ row ∈ table, row.length = L)
    (hcov : ∀ i, i < L → updIdxs.contains i = true ∨ keyIdxs.contains i = true)
    (hpwNew : newRows.Pairwise (fun a b => key_of keyIdxs a ≠ key_of keyIdxs b))
    (hpwTab : table.Pairwise (fun a b => key_of keyIdxs a ≠ key_of keyIdxs b))
    (r : List V) (hr : r ∈ newRows) :
    (run_upsert keyIdxs updIdxs newRows table).filter
        (fun x => key_of keyIdxs x == key_of keyIdxs r) = [r] := by
  rw [run_upsert, List.filter_append]
  rw [filter_updated_eq keyIdxs updIdxs newRows L r hr hpwNew (hLnew r hr) hcov
    table hLtab hpwTab]
  rw [List.filter_filter]
  have hswap : newRows.filter
      (fun a => (key_of keyIdxs a == key_of keyIdxs r)
        && !((upsert_returning keyIdxs updIdxs newRows table).any
              (fun up => key_of keyIdxs up == key_of keyIdxs a)))
      = newRows.filter
        (fun a => (!((upsert_returning keyIdxs updIdxs newRows table).any
              (fun up => key_of keyIdxs up == key_of keyIdxs a)))
          && (key_of keyIdxs a == key_of keyIdxs r)) := by
    apply List.filter_congr
    intro a _
    exact Bool.and_comm _ _
  rw [hswap, ← List.filter_filter, filter_key_unique keyIdxs hpwNew hr]
  have hfilter_single : List.filter
      (fun a => !((upsert_returning keyIdxs updIdxs newRows table).any
          (fun up => key_of keyIdxs up == key_of keyIdxs a))) [r]
      = if (upsert_returning keyIdxs updIdxs newRows table).any
            (fun up => key_of keyIdxs up == key_of keyIdxs r) then [] else [r] := by
    rw [List.filter_cons]
    cases hany : (upsert_returning keyIdxs updIdxs newRows table).any
        (fun up => key_of keyIdxs up == key_of keyIdxs r) with
    | true => simp [hany]
    | false => simp [hany]
  rw [hfilter_single, returning_any_eq keyIdxs updIdxs newRows table r hr hpwNew]
  cases htab : table.any (fun row => key_of keyIdxs row == key_of keyIdxs r) with
  | true => simp
  | false => simp

/-- C1 counterexample: as literally stated the claim fails when the table
already holds two rows with the same key tuple — every hypothesis of the
claim (non-empty batch, unique key tuples within the batch, uniform lengths,
update positions covering the non-key positions) holds, yet after the call
the record's key tuple maps to two rows, not one. -/
theorem upsert_roundtrip_counterexample :
    (∀ nv ∈ ([[1, 9]] : List (List Int)), nv.length = 2)
    ∧ (∀ row ∈ ([[1, 5], [1, 6]] : List (List Int)), row.length = 2)
    ∧ (∀ i, i < 2 → ([1] : List Nat).contains i = true ∨ ([0] : List Nat).contains i = true)
    ∧ ([[1, 9]] : List (List Int)).Pairwise
        (fun a b => key_of [0] a ≠ key_of [0] b)
    ∧ ([1, 9] : List Int) ∈ ([[1, 9]] : List (List Int))
    ∧ ¬((run_upsert [0] [1] ([[1, 9]] : List (List Int)) [[1, 5], [1, 6]]).filter
          (fun x => key_of [0] x == key_of [0] ([1, 9] : List Int))
        = [([1, 9] : List Int)]) := by
  decide

/-- Witness for C1: the spec's scenario — table rows `{10 ↦ 5, 20 ↦ 2}`,
upserting `{10 ↦ 9}` by the key in column 0 leaves exactly one row keyed 10,
holding 9. -/
theorem upsert_roundtrip_witness :
    (run_upsert [0] [1] ([[10, 9]] : List (List Int)) [[10, 5], [20, 2]]).filter
        (fun x => key_of [0] x == key_of [0] ([10, 9] : List Int))
      = [([10, 9] : List Int)] :=
  upsert_roundtrip [0] [1] ([[10, 9]] : List (List Int)) [[10, 5], [20, 2]] 2
    (by decide) (by decide) (by decide) (by decide) (by decide)
    ([10, 9] : List Int) (by decide)

/-- C7 (amended): with key tuples unique within the batch, running the
modelled statement twice with the same records leaves the table exactly as
one run does — every row of the once-upserted table is a fixed point of the
second UPDATE, and the second run inserts nothing because every staged key
already occurs in the table. -/
theorem upsert_idempotent {V : Type} [DecidableEq V] [Inhabited V]
    (k u : List Nat) (newRows s : List (List V))
    (hpw : newRows.Pairwise (fun a b => key_of k a ≠ key_of k b)) :
    run_upsert k u newRows (run_upsert k u newRows s) = run_upsert k u newRows s := by
  have hfix : ∀ x ∈ run_upsert k u newRows s, upd_row k u newRows x = x := by
    intro x hx
    rw [run_upsert, List.mem_append] at hx
    rcases hx with hx | hx
    · rw [List.mem_map] at hx
      rcases hx with ⟨row, hrow, hx⟩
      cases hfind : newRows.find? (fun nv => key_of k nv == key_of k row) with
      | none =>
        have hxr : x = row := by rw [← hx]; simp only [upd_row, hfind]
        rw [hxr]
        simp only [upd_row, hfind]
      | some nv =>
        have hxr : x = set_cols u nv row := by rw [← hx]; simp only [upd_row, hfind]
        have hp0 := List.find?_some hfind
        have hp : (key_of k nv == key_of k row) = true := hp0
        have hkeyx : key_of k x = key_of k row := by
          rw [hxr]
          exact key_of_set_cols u (beq_iff_eq.mp hp)
        have hfind2 : newRows.find? (fun a => key_of k a == key_of k x) = some nv := by
          rw [find?_congr_pred
            (fun a => (by rw [hkeyx] :
              (key_of k a == key_of k x) = (key_of k a == key_of k row))) newRows]
          exact hfind
        simp only [upd_row, hfind2]
        rw [hxr]
        exact set_cols_absorb u nv row
    · have hxnr : x ∈ newRows := List.mem_of_mem_filter hx
      have hfind2 : newRows.find? (fun a => key_of k a == key_of k x) = some x :=
        find?_key_unique k hpw hxnr
      simp only [upd_row, hfind2]
      exact set_cols_self u x
  have hpresent : ∀ nv ∈ newRows,
      ∃ x ∈ run_upsert k u newRows s, key_of k x = key_of k nv := by
    intro nv hnv
    cases hQ : (upsert_returning k u newRows s).any
        (fun up => key_of k up == key_of k nv) with
    | false =>
      refine ⟨nv, ?_, rfl⟩
      rw [run_upsert, List.mem_append]
      right
      rw [List.mem_filter]
      exact ⟨hnv, by rw [hQ]; rfl⟩
    | true =>
      rw [List.any_eq_true] at hQ
      rcases hQ with ⟨up, hup, hkeq⟩
      refine ⟨up, ?_, beq_iff_eq.mp hkeq⟩
      rw [run_upsert, List.mem_append]
      left
      rw [upsert_returning, List.mem_filterMap] at hup
      rcases hup with ⟨row, hrow, hmap⟩
      cases hfind : newRows.find? (fun a => key_of k a == key_of k row) with
      | none => rw [hfind] at hmap; cases hmap
      | some nv2 =>
        rw [hfind] at hmap
        have hup2 : up = set_cols u nv2 row := by
          have := hmap
          simp at this
          exact this.symm
        rw [List.mem_map]
        refine ⟨row, hrow, ?_⟩
        simp only [upd_row, hfind]
        exact hup2.symm
  have hins : newRows.filter
      (fun nv => !((upsert_returning k u newRows (run_upsert k u newRows s)).any
          (fun up => key_of k up == key_of k nv))) = [] := by
    rw [List.filter_eq_nil_iff]
    intro nv hnv
    rcases hpresent nv hnv with ⟨x, hx, hkey⟩
    have hfind2 : newRows.find? (fun a => key_of k a == key_of k x) = some nv := by
      rw [find?_congr_pred
        (fun a => (by rw [hkey] :
          (key_of k a == key_of k x) = (key_of k a == key_of k nv))) newRows]
      exact find?_key_unique k hpw hnv
    have hmem : set_cols u nv x
        ∈ upsert_returning k u newRows (run_upsert k u newRows s) := by
      rw [upsert_returning, List.mem_filterMap]
      exact ⟨x, hx, by rw [hfind2]; rfl⟩
    have hkeyset : key_of k (set_cols u nv x) = key_of k nv := by
      rw [key_of_set_cols u hkey.symm, hkey]
    have hany : (upsert_returning k u newRows (run_upsert k u newRows s)).any
        (fun up => key_of k up == key_of k nv) = true :=
      List.any_eq_true.mpr ⟨set_cols u nv x, hmem, beq_iff_eq.mpr hkeyset⟩
    simp [hany]
  calc run_upsert k u newRows (run_upsert k u newRows s)
      = (run_upsert k u newRows s).map (upd_row k u newRows)
          ++ newRows.filter
            (fun nv => !((upsert_returning k u newRows (run_upsert k u newRows s)).any
                (fun up => key_of k up == key_of k nv))) := rfl
    _ = (run_upsert k u newRows s).map (fun a => a) ++ [] := by
        rw [hins, List.map_congr_left hfix]
    _ = run_upsert k u newRows s := by simp

/-- C7 counterexample: as literally stated ("for every list of records") the
claim fails when two records share a key tuple — the first run inserts both,
the second run rewrites both rows from the same staged record, so the state
after two runs differs from the state after one. -/
theorem upsert_idempotent_counterexample :
    run_upsert [0] [1] ([[1, 5], [1, 6]] : List (List Int))
        (run_upsert [0] [1] ([[1, 5], [1, 6]] : List (List Int)) [])
      ≠ run_upsert [0] [1] ([[1, 5], [1, 6]] : List (List Int)) [] := by
  decide

/-- Witness for C7: upserting the spec's two `widgets` rows twice from the
empty table equals upserting them once. -/
theorem upsert_idempotent_witness :
    run_upsert [0] [1] ([[10, 5], [20, 2]] : List (List Int))
        (run_upsert [0] [1] ([[10, 5], [20, 2]] : List (List Int)) [])
      = run_upsert [0] [1] ([[10, 5], [20, 2]] : List (List Int)) [] :=
  upsert_idempotent [0] [1] ([[10, 5], [20, 2]] : List (List Int)) [] (by decide)
